import Mathlib

/-!
# Task List Store — shallow embedding and verification

Shallow embedding of the task-list state machine implemented in
`src/routes/+page.svelte` (the richer variant, with edit-in-place and
drag-and-drop reorder), together with proofs of the specified properties.

Modelling conventions:
* The TS `Todo` record has optional fields `isEditing?: boolean` and
  `editedText?: string`.  Every read of these fields in the source goes
  through a JS falsy-default (`?.isEditing` and `(todo.editedText || '')`),
  under which an absent field is indistinguishable from `false` / `""`;
  we therefore model them as total fields `isEditing : Bool` and
  `editedText : String`.
* `Date.now()` is a platform call outside the repository; operations that
  read it (`addTodo`) take the clock value `now` as an explicit parameter.
* DOM-event plumbing (`event.preventDefault()`, `dataTransfer`) is outside
  the store's state and is not modelled; the transient drag ids are passed
  as parameters where the handlers read them.
* All operations are total Lean functions: the source never throws on any
  of these paths (the only `try/catch` is around hydration's `JSON.parse`,
  modelled in `hydrate` below).
-/

/-- JS `String.prototype.trim()`: strips leading and trailing whitespace.
(Implemented by structural recursion over the character list so that
witnesses can evaluate it; Lean core's `String.trim` is defined by
well-founded recursion, which the kernel cannot unfold.) -/
def jsTrim (s : String) : String :=
  String.mk (((s.data.dropWhile Char.isWhitespace).reverse.dropWhile Char.isWhitespace).reverse)

/-- The `Todo` record of `+page.svelte`:
`{ id: number; text: string; completed: boolean; isEditing?: boolean; editedText?: string }`. -/
structure Todo where
  id : Nat
  text : String
  completed : Bool
  isEditing : Bool
  editedText : String
deriving Repr, DecidableEq

/-- The component state read and written by the store operations:
the `todos` list, the validation message `MSG`, and the input buffer
`newTodoText`. -/
structure AppState where
  todos : List Todo
  msg : String
  newTodoText : String
deriving Repr, DecidableEq

/-- `addTodo()`:
trims `newTodoText`; if empty sets `MSG = "Please enter a task"` and
returns; otherwise clears `MSG`, appends
`{ id: Date.now(), text, completed: false, isEditing: false, editedText: text }`
and clears the input buffer.  `now` stands for the `Date.now()` call. -/
def addTodo (now : Nat) (s : AppState) : AppState :=
  let text := jsTrim s.newTodoText
  if text = "" then
    { s with msg := "Please enter a task" }
  else
    { s with
      msg := ""
      todos := s.todos ++
        [{ id := now, text := text, completed := false,
           isEditing := false, editedText := text }]
      newTodoText := "" }

/-- `removeTodo(id)`: `todos = todos.filter(todo => todo.id !== id)`. -/
def removeTodo (id : Nat) (todos : List Todo) : List Todo :=
  todos.filter (fun todo => todo.id ≠ id)

/-- `toggleChecked(id)`:
`todos = todos.map(todo => todo.id === id ? { ...todo, completed: !todo.completed } : todo)`. -/
def toggleChecked (id : Nat) (todos : List Todo) : List Todo :=
  todos.map (fun todo =>
    if todo.id = id then { todo with completed := !todo.completed } else todo)

/-- `editTodo(id)`:
`todos.map(todo => todo.id === id ? { ...todo, isEditing: true, editedText: todo.text }
                                  : { ...todo, isEditing: false })`. -/
def editTodo (id : Nat) (todos : List Todo) : List Todo :=
  todos.map (fun todo =>
    if todo.id = id then { todo with isEditing := true, editedText := todo.text }
    else { todo with isEditing := false })

/-- The per-element transformation of `saveEdit`'s `map` callback, paired
with the `MSG` assignment (if any) that the callback performs on that
element: `some m` when the callback assigns `MSG = m`, `none` otherwise. -/
def saveEditStep (id : Nat) (todo : Todo) : Todo × Option String :=
  if todo.id = id then
    let trimmedText := jsTrim todo.editedText
    if trimmedText = "" then
      ({ todo with isEditing := false, editedText := todo.text },
       some "Task cannot be empty. Edit cancelled.")
    else
      ({ todo with text := trimmedText, isEditing := false, editedText := trimmedText },
       some "")
  else (todo, none)

/-- `saveEdit(id)`: the source maps over `todos` with a callback that also
assigns `MSG` on each element whose id matches.  The list result is the map
of the element transformations; the final `MSG` is the last assignment the
left-to-right traversal performed, or the previous `MSG` if no element
matched. -/
def saveEdit (id : Nat) (s : AppState) : AppState :=
  { s with
    todos := s.todos.map (fun todo => (saveEditStep id todo).1)
    msg := s.todos.foldl (fun m todo => ((saveEditStep id todo).2).getD m) s.msg }

/-- `cancelEdit(id)`:
`todos.map(todo => todo.id === id ? { ...todo, isEditing: false, editedText: todo.text } : todo)`
then `MSG = ""`. -/
def cancelEdit (id : Nat) (s : AppState) : AppState :=
  { s with
    todos := s.todos.map (fun todo =>
      if todo.id = id then { todo with isEditing := false, editedText := todo.text }
      else todo)
    msg := "" }

/-- `handleDrop(event, targetId)`'s effect on `todos`.
`draggedTodoId` is the transient id stored by `handleDragStart` (`null`
when no drag is in progress).  If it is null or equals `targetId` the list
is unchanged; otherwise both indices are looked up with `findIndex`
(`-1` modelled as `none`) and, when both are found, the dragged element is
spliced out at `draggedIndex` and spliced back in at `targetIndex`.
The inner `none` branch is unreachable: `findIdx?` only returns indices in
range, so the lookup of the dragged element always succeeds. -/
def handleDrop (draggedTodoId : Option Nat) (targetId : Nat)
    (todos : List Todo) : List Todo :=
  match draggedTodoId with
  | none => todos
  | some draggedId =>
    if draggedId = targetId then todos
    else
      match todos.findIdx? (fun t => t.id = draggedId),
            todos.findIdx? (fun t => t.id = targetId) with
      | some draggedIndex, some targetIndex =>
        match todos.get? draggedIndex with
        | some removed => (todos.eraseIdx draggedIndex).insertIdx targetIndex removed
        | none => todos
      | _, _ => todos

/-- The spec's `reorder(draggedId, targetId)`: `handleDrop` with a drag of
`draggedId` in progress. -/
def reorder (draggedId targetId : Nat) (todos : List Todo) : List Todo :=
  handleDrop (some draggedId) targetId todos

/-! ## Sample tasks used by witnesses -/

/-- Sample task "Task A". -/
def tA : Todo := { id := 1, text := "Task A", completed := false, isEditing := false, editedText := "Task A" }

/-- Sample task "Task B". -/
def tB : Todo := { id := 2, text := "Task B", completed := false, isEditing := false, editedText := "Task B" }

/-- Sample task "Task C". -/
def tC : Todo := { id := 3, text := "Task C", completed := false, isEditing := false, editedText := "Task C" }

/-- Sample task in editing mode with a pending non-empty edit buffer. -/
def tEdit : Todo := { id := 7, text := "old", completed := false, isEditing := true, editedText := " new " }

/-! ## Hydration and persistence -/

/-- Outcome of the platform's `JSON.parse` plus the record-shape check:
`ok` when the stored string parses as a sequence of Task records, `err`
(the thrown exception's message) otherwise. -/
inductive ParseResult where
  | ok (todos : List Todo)
  | err (e : String)

/-- Result of the startup hydration block:
the hydrated collection, the value left at the `"todos"` storage key, and
whether a failure was logged via `console.error`. -/
structure HydrationResult where
  todos : List Todo
  storedAfter : Option String
  loggedError : Bool
deriving Repr, DecidableEq

/-- The hydration block at the top of the component script:
`const stored = localStorage.getItem("todos"); if (stored) { try {...} catch {...} }`.
`if (stored)` is a JS-truthiness test, so the block runs only when the
value is present and non-empty: a stored empty string is falsy and skips
hydration entirely — nothing is parsed, nothing is logged, and the value
is left at the key.  Otherwise, on a successful parse every record is
mapped through `{ ...todo, isEditing: false, editedText: todo.text }`; on
a parse failure (the `catch` branch) the error is logged and the stored
value removed, leaving the collection at its initial empty value.  The
function is total: the `try/catch` means no exception propagates. -/
def hydrate (stored : Option String) (parse : String → ParseResult) :
    HydrationResult :=
  match stored with
  | none => { todos := [], storedAfter := none, loggedError := false }
  | some s =>
    if s = "" then
      { todos := [], storedAfter := some s, loggedError := false }
    else
      match parse s with
      | .ok ts =>
        { todos := ts.map (fun todo => { todo with isEditing := false, editedText := todo.text }),
          storedAfter := some s,
          loggedError := false }
      | .err _ =>
        { todos := [], storedAfter := none, loggedError := true }

/-- The persisted shape of one task: the `$effect` saves
`const { isEditing, editedText, ...rest } = todo; return rest`, so the
stored record has exactly the fields `id`, `text`, `completed` — the
transient fields are never part of the persisted representation. -/
structure StoredTodo where
  id : Nat
  text : String
  completed : Bool
deriving Repr, DecidableEq

/-- The strip performed by the persistence `$effect` on one task. -/
def stripTransient (todo : Todo) : StoredTodo :=
  { id := todo.id, text := todo.text, completed := todo.completed }

/-- `todosToSave` of the persistence `$effect`: the collection with the
transient fields stripped, in order. -/
def todosToSave (todos : List Todo) : List StoredTodo :=
  todos.map stripTransient

/-- A persisted record as `JSON.parse` returns it: the stored fields, with
the absent optional fields at their JS-falsy defaults. -/
def parsedOfStored (r : StoredTodo) : Todo :=
  { id := r.id, text := r.text, completed := r.completed,
    isEditing := false, editedText := "" }
/-- The `MSG` value `saveEdit`'s callback assigns when it visits a matching
task. -/
def saveEditMsg (todo : Todo) : String :=
  if jsTrim todo.editedText = "" then "Task cannot be empty. Edit cancelled." else ""
/-- The single-editor invariant: at most one task has `isEditing = true`. -/
def AtMostOneEditing (todos : List Todo) : Prop :=
  List.countP (fun t => t.isEditing) todos ≤ 1

instance (todos : List Todo) : Decidable (AtMostOneEditing todos) := by
  unfold AtMostOneEditing
  infer_instance
/-- The id-uniqueness invariant: no two tasks in the collection share an
id. -/
def UniqueIds (todos : List Todo) : Prop :=
  todos.Pairwise (fun a b => a.id ≠ b.id)

instance (todos : List Todo) : Decidable (UniqueIds todos) := by
  unfold UniqueIds
  infer_instance
/-- States reachable by the component's event handlers from the initial
empty collection.  `typeNew` and `typeEditBuffer` model the two bound text
inputs (`bind:value={newTodoText}` and `bind:value={todo.editedText}`).
`add` carries the clock assumption the spec makes of `Date.now()` — the id
source is "monotonically-increasing-enough", i.e. each add's clock value
exceeds every id already in the collection. -/
inductive Reachable : AppState → Prop where
  | init : Reachable { todos := [], msg := "", newTodoText := "" }
  | typeNew (s : AppState) (txt : String) : Reachable s →
      Reachable { s with newTodoText := txt }
  | typeEditBuffer (s : AppState) (id : Nat) (txt : String) : Reachable s →
      Reachable { s with todos := s.todos.map (fun t =>
        if t.id = id then { t with editedText := txt } else t) }
  | add (s : AppState) (now : Nat) : Reachable s →
      (∀ t ∈ s.todos, t.id < now) → Reachable (addTodo now s)
  | remove (s : AppState) (id : Nat) : Reachable s →
      Reachable { s with todos := removeTodo id s.todos }
  | toggle (s : AppState) (id : Nat) : Reachable s →
      Reachable { s with todos := toggleChecked id s.todos }
  | edit (s : AppState) (id : Nat) : Reachable s →
      Reachable { s with todos := editTodo id s.todos }
  | save (s : AppState) (id : Nat) : Reachable s → Reachable (saveEdit id s)
  | cancel (s : AppState) (id : Nat) : Reachable s → Reachable (cancelEdit id s)
  | dragDrop (s : AppState) (draggedTodoId : Option Nat) (targetId : Nat) :
      Reachable s →
      Reachable { s with todos := handleDrop draggedTodoId targetId s.todos }

/-! ## C5: addTodo -/

/-- Claim C5: if the input buffer trims to empty, `addTodo` leaves the
collection unchanged and sets the message "Please enter a task"; otherwise
it clears the message, increases the length by exactly one, appends a new
task (existing prefix unchanged) whose text is the trimmed input and whose
`completed` is `false`, and clears the input buffer. -/
theorem addTodo_spec (s : AppState) (now : Nat) :
    (jsTrim s.newTodoText = "" →
      (addTodo now s).todos = s.todos ∧
      (addTodo now s).msg = "Please enter a task")
    ∧ (jsTrim s.newTodoText ≠ "" →
      (addTodo now s).msg = "" ∧
      (addTodo now s).todos.length = s.todos.length + 1 ∧
      (addTodo now s).todos.dropLast = s.todos ∧
      (addTodo now s).todos.getLast? =
        some { id := now, text := jsTrim s.newTodoText, completed := false,
               isEditing := false, editedText := jsTrim s.newTodoText } ∧
      (addTodo now s).newTodoText = "") := by
  constructor
  · intro h
    simp [addTodo, h]
  · intro h
    simp [addTodo, h]

/-- Witness for C5 at a concrete state whose input buffer trims to "hi". -/
theorem addTodo_spec_witness :
    (addTodo 42 { todos := [], msg := "x", newTodoText := " hi " }).msg = "" ∧
    (addTodo 42 { todos := [], msg := "x", newTodoText := " hi " }).todos.length = ([] : List Todo).length + 1 ∧
    (addTodo 42 { todos := [], msg := "x", newTodoText := " hi " }).todos.dropLast = [] ∧
    (addTodo 42 { todos := [], msg := "x", newTodoText := " hi " }).todos.getLast? =
      some { id := 42, text := jsTrim " hi ", completed := false,
             isEditing := false, editedText := jsTrim " hi " } ∧
    (addTodo 42 { todos := [], msg := "x", newTodoText := " hi " }).newTodoText = "" :=
  (addTodo_spec { todos := [], msg := "x", newTodoText := " hi " } 42).2 (by decide)

/-! ## C8: toggleChecked -/

/-- Claim C8: `toggleChecked id` is a no-op when no task has the id, flips
exactly the `completed` field of the matching task (all positions: matching
position flipped, others unchanged), and double invocation restores the
original collection (involution). -/
theorem toggleChecked_spec :
    (∀ (todos : List Todo) (id : Nat),
      (∀ t ∈ todos, t.id ≠ id) → toggleChecked id todos = todos)
    ∧ (∀ (todos : List Todo) (id : Nat),
      toggleChecked id (toggleChecked id todos) = todos)
    ∧ (∀ (todos : List Todo) (id : Nat) (i : Nat) (h : i < todos.length)
        (h' : i < (toggleChecked id todos).length),
      (toggleChecked id todos).get ⟨i, h'⟩ =
        (if (todos.get ⟨i, h⟩).id = id
         then { todos.get ⟨i, h⟩ with completed := !(todos.get ⟨i, h⟩).completed }
         else todos.get ⟨i, h⟩)) := by
  refine ⟨?_, ?_, ?_⟩
  · intro todos id h
    have : ∀ t ∈ todos,
        (if t.id = id then { t with completed := !t.completed } else t) = t := by
      intro t ht
      simp [h t ht]
    simp [toggleChecked, List.map_congr_left this]
  · intro todos id
    induction todos with
    | nil => rfl
    | cons t rest ih =>
      obtain ⟨tid, ttext, tcomp, tisEd, tbuf⟩ := t
      by_cases h : tid = id <;>
        simp only [toggleChecked, List.map_cons] at ih ⊢ <;>
        simp [h, ih, Bool.not_not]
  · intro todos id i h h'
    simp [toggleChecked, List.get_eq_getElem, List.getElem_map]

/-- Witness for C8: absent id is a no-op on `[tA]`, and the matching
position of `[tA, tB]` has its `completed` flipped. -/
theorem toggleChecked_spec_witness :
    toggleChecked 99 [tA] = [tA] ∧
    (toggleChecked 1 [tA, tB]).get ⟨0, by decide⟩ =
      { tA with completed := !tA.completed } := by
  constructor
  · exact toggleChecked_spec.1 [tA] 99 (by decide)
  · have h := toggleChecked_spec.2.2 [tA, tB] 1 0 (by decide) (by decide)
    simpa [tA] using h

/-! ## C9: removeTodo -/

/-- Claim C9: `removeTodo id` deletes the matching task if present and is a
no-op when absent; no task with the id remains; the remaining tasks keep
their relative order (the result is a sublist); under the id-uniqueness
invariant the length decreases by at most one; and a second `removeTodo id`
is a no-op. -/
theorem removeTodo_spec :
    (∀ (todos : List Todo) (id : Nat),
      (∀ t ∈ todos, t.id ≠ id) → removeTodo id todos = todos)
    ∧ (∀ (todos : List Todo) (id : Nat), ∀ t ∈ removeTodo id todos, t.id ≠ id)
    ∧ (∀ (todos : List Todo) (id : Nat), (removeTodo id todos).Sublist todos)
    ∧ (∀ (todos : List Todo) (id : Nat),
      List.countP (fun t => t.id = id) todos ≤ 1 →
      todos.length ≤ (removeTodo id todos).length + 1)
    ∧ (∀ (todos : List Todo) (id : Nat),
      removeTodo id (removeTodo id todos) = removeTodo id todos) := by
  refine ⟨?_, ?_, ?_, ?_, ?_⟩
  · intro todos id h
    rw [removeTodo, List.filter_eq_self]
    intro t ht
    simpa using h t ht
  · intro todos id t ht
    have := (List.mem_filter.mp ht).2
    simpa using this
  · intro todos id
    exact List.filter_sublist todos
  · intro todos id h
    have hsplit := List.length_eq_countP_add_countP (fun t => decide (t.id = id)) todos
    have hlen : (removeTodo id todos).length =
        List.countP (fun t => decide ¬(decide (t.id = id)) = true) todos := by
      rw [removeTodo, ← List.countP_eq_length_filter]
      exact List.countP_congr (by intro t ht; simp)
    omega
  · intro todos id
    rw [removeTodo, removeTodo, List.filter_filter]
    simp

/-- Witness for C9: removing an absent id from `[tA]` is a no-op, and under
the uniqueness bound removing id 1 from `[tA, tB]` shrinks the length by at
most one. -/
theorem removeTodo_spec_witness :
    removeTodo 99 [tA] = [tA] ∧
    [tA, tB].length ≤ (removeTodo 1 [tA, tB]).length + 1 := by
  constructor
  · exact removeTodo_spec.1 [tA] 99 (by decide)
  · exact removeTodo_spec.2.2.2.1 [tA, tB] 1 (by decide)

/-! ## C10: editTodo with an absent id -/

/-- Claim C10: calling `editTodo` with an id not present in the collection
leaves every task's `id`, `text`, `completed` and the list order unchanged,
but still forces `isEditing = false` on every task (it cancels any
in-progress edit rather than doing nothing). -/
theorem editTodo_absent_spec (todos : List Todo) (id : Nat)
    (h : ∀ t ∈ todos, t.id ≠ id) :
    (editTodo id todos).map (fun t => (t.id, t.text, t.completed)) =
      todos.map (fun t => (t.id, t.text, t.completed))
    ∧ ∀ t ∈ editTodo id todos, t.isEditing = false := by
  constructor
  · rw [editTodo, List.map_map]
    refine List.map_congr_left ?_
    intro t ht
    simp [h t ht]
  · intro t ht
    rw [editTodo] at ht
    obtain ⟨u, hu, rfl⟩ := List.mem_map.mp ht
    by_cases hid : u.id = id
    · exact absurd hid (h u hu)
    · simp [hid]

/-- Witness for C10 on `[tEdit]` (which is in editing mode) with the absent
id 99: fields and order survive and the edit flag is cleared. -/
theorem editTodo_absent_spec_witness :
    (editTodo 99 [tEdit]).map (fun t => (t.id, t.text, t.completed)) =
      [tEdit].map (fun t => (t.id, t.text, t.completed))
    ∧ ∀ t ∈ editTodo 99 [tEdit], t.isEditing = false :=
  editTodo_absent_spec [tEdit] 99 (by decide)

/-! ## C3: hydration error handling -/

/-- Counterexample to C3 as stated: the stored empty string fails
`JSON.parse`, yet hydration neither logs nor clears it — `if (stored)` is
a JS-truthiness test and the empty string is falsy, so the whole block is
skipped and the value is left at the key. -/
theorem hydrate_spec_counterexample :
    (hydrate (some "") (fun _ => ParseResult.err "SyntaxError")).loggedError = false ∧
    (hydrate (some "") (fun _ => ParseResult.err "SyntaxError")).storedAfter = some "" :=
  ⟨rfl, rfl⟩

/-- Claim C3 (amended): a stored empty string is JS-falsy, so hydration is
skipped entirely — the collection starts empty, nothing is logged and the
value is left at the key; for every other (non-empty) stored string that
fails to parse, hydration logs the failure, clears the stored value and
starts with the empty collection (and, `hydrate` being a total function,
no exception reaches the caller); whenever a parse result is used, every
hydrated task has `isEditing` forced to `false` regardless of what was
stored. -/
theorem hydrate_spec (s : String) (parse : String → ParseResult) :
    (s = "" →
      (hydrate (some s) parse).todos = [] ∧
      (hydrate (some s) parse).storedAfter = some s ∧
      (hydrate (some s) parse).loggedError = false)
    ∧ (s ≠ "" → ∀ e, parse s = ParseResult.err e →
      (hydrate (some s) parse).todos = [] ∧
      (hydrate (some s) parse).storedAfter = none ∧
      (hydrate (some s) parse).loggedError = true)
    ∧ (∀ ts, parse s = ParseResult.ok ts →
      ∀ t ∈ (hydrate (some s) parse).todos, t.isEditing = false) := by
  refine ⟨?_, ?_, ?_⟩
  · intro hs
    simp [hydrate, hs]
  · intro hs e he
    simp [hydrate, hs, he]
  · intro ts hts t ht
    by_cases hs : s = ""
    · simp [hydrate, hs] at ht
    · simp only [hydrate, hs, if_false, hts] at ht
      obtain ⟨u, _, rfl⟩ := List.mem_map.mp ht
      rfl

/-- Witness for C3: hydrating the falsy empty string is a silent no-op;
hydrating a non-empty corrupted string with a parse that throws yields the
empty collection, a cleared key and a logged error; hydrating a parse that
returns a record with `isEditing: true` still yields a non-editing task. -/
theorem hydrate_spec_witness :
    ((hydrate (some "") (fun _ => ParseResult.err "SyntaxError")).todos = [] ∧
      (hydrate (some "") (fun _ => ParseResult.err "SyntaxError")).storedAfter = some "" ∧
      (hydrate (some "") (fun _ => ParseResult.err "SyntaxError")).loggedError = false)
    ∧ ((hydrate (some "not-json") (fun _ => ParseResult.err "SyntaxError")).todos = [] ∧
      (hydrate (some "not-json") (fun _ => ParseResult.err "SyntaxError")).storedAfter = none ∧
      (hydrate (some "not-json") (fun _ => ParseResult.err "SyntaxError")).loggedError = true)
    ∧ ∀ t ∈ (hydrate (some "ok") (fun _ => ParseResult.ok [{ tA with isEditing := true }])).todos,
        t.isEditing = false :=
  ⟨(hydrate_spec "" (fun _ => ParseResult.err "SyntaxError")).1 rfl,
   (hydrate_spec "not-json" (fun _ => ParseResult.err "SyntaxError")).2.1
     (by decide) "SyntaxError" rfl,
   (hydrate_spec "ok" (fun _ => ParseResult.ok [{ tA with isEditing := true }])).2.2
     [{ tA with isEditing := true }] rfl⟩

/-! ## C4: persistence round trip -/

/-- Claim C4: serializing a collection (transient fields stripped — the
persisted `StoredTodo` shape has no `isEditing`/`editedText` field at all),
clearing the in-memory state and rehydrating yields a collection field-equal
to the original ignoring transient fields, in the same order.  The
hypotheses state that the persisted string — `JSON.stringify` of an array,
which always starts with a bracket — is not the JS-falsy empty string, and
that the platform's `JSON.parse` of it returns exactly the saved records
(with the absent transient fields at their falsy defaults). -/
theorem persistence_roundtrip_spec (todos : List Todo) (str : String)
    (parse : String → ParseResult)
    (hstr : str ≠ "")
    (hparse : parse str = ParseResult.ok ((todosToSave todos).map parsedOfStored)) :
    todosToSave (hydrate (some str) parse).todos = todosToSave todos
    ∧ (hydrate (some str) parse).todos =
      todos.map (fun t => { t with isEditing := false, editedText := t.text }) := by
  have hres : (hydrate (some str) parse).todos =
      todos.map (fun t => { t with isEditing := false, editedText := t.text }) := by
    simp only [hydrate, hstr, if_false, hparse, todosToSave, List.map_map]
    refine List.map_congr_left ?_
    intro t _
    rfl
  refine ⟨?_, hres⟩
  rw [hres, todosToSave, todosToSave, List.map_map]
  rfl

/-- Witness for C4 on a two-task collection, one task in editing mode with
a dirty scratch buffer: the rehydrated collection agrees on `id`, `text`,
`completed` in order. -/
theorem persistence_roundtrip_spec_witness :
    todosToSave (hydrate (some "[…]")
        (fun _ => ParseResult.ok ((todosToSave [tEdit, tB]).map parsedOfStored))).todos =
      todosToSave [tEdit, tB]
    ∧ (hydrate (some "[…]")
        (fun _ => ParseResult.ok ((todosToSave [tEdit, tB]).map parsedOfStored))).todos =
      [tEdit, tB].map (fun t => { t with isEditing := false, editedText := t.text }) :=
  persistence_roundtrip_spec [tEdit, tB] "[…]"
    (fun _ => ParseResult.ok ((todosToSave [tEdit, tB]).map parsedOfStored))
    (by decide) rfl

/-! ## C1: reorder (drag-and-drop move) -/

/-- Shared helper: `handleDrop` permutes the collection (it only ever
splices one element out and back in). -/
theorem handleDrop_perm (draggedTodoId : Option Nat) (targetId : Nat)
    (todos : List Todo) : (handleDrop draggedTodoId targetId todos).Perm todos := by
  cases draggedTodoId with
  | none => simp [handleDrop]
  | some draggedId =>
    by_cases heq : draggedId = targetId
    · simp [handleDrop, heq]
    · cases hd : todos.findIdx? (fun t => t.id = draggedId) with
      | none =>
        simp only [handleDrop, heq, if_false, hd]
        exact List.Perm.refl _
      | some i =>
        cases ht : todos.findIdx? (fun t => t.id = targetId) with
        | none =>
          simp only [handleDrop, heq, if_false, hd, ht]
          exact List.Perm.refl _
        | some j =>
          have hi : i < todos.length :=
            (List.findIdx?_eq_some_iff_findIdx_eq.mp hd).1
          have hj : j < todos.length :=
            (List.findIdx?_eq_some_iff_findIdx_eq.mp ht).1
          have hget : todos.get? i = some todos[i] := by
            rw [List.get?_eq_getElem?]
            exact List.getElem?_eq_getElem hi
          simp only [handleDrop, heq, if_false, hd, ht, hget]
          have hjle : j ≤ (todos.eraseIdx i).length := by
            rw [List.length_eraseIdx]
            simp only [hi, if_true]
            omega
          have step1 : ((todos.eraseIdx i).insertIdx j todos[i]).Perm
              (todos[i] :: todos.eraseIdx i) := List.perm_insertIdx _ _ hjle
          have step2 : (todos[i] :: todos.eraseIdx i).Perm todos := by
            conv_rhs =>
              rw [← List.take_append_drop i todos,
                ← List.getElem_cons_drop todos i hi]
            rw [List.eraseIdx_eq_take_drop_succ]
            exact List.perm_middle.symm
          exact step1.trans step2

/-- Claim C1: `reorder` is a no-op when the two ids coincide or either id
is absent from the collection; otherwise it removes the dragged task from
its current index and reinserts it at the index the target task occupied
before the removal (a single-element move); it always preserves the
multiset of tasks (hence every task's field values); and from order
`[A, B, C]` (distinct ids), `reorder(A.id, C.id)` yields `[B, C, A]`. -/
theorem reorder_spec :
    (∀ (todos : List Todo) (draggedId targetId : Nat), draggedId = targetId →
      reorder draggedId targetId todos = todos)
    ∧ (∀ (todos : List Todo) (draggedId targetId : Nat),
      (∀ t ∈ todos, t.id ≠ draggedId) → reorder draggedId targetId todos = todos)
    ∧ (∀ (todos : List Todo) (draggedId targetId : Nat),
      (∀ t ∈ todos, t.id ≠ targetId) → reorder draggedId targetId todos = todos)
    ∧ (∀ (todos : List Todo) (draggedId targetId : Nat),
      (reorder draggedId targetId todos).Perm todos)
    ∧ (∀ (todos : List Todo) (draggedId targetId : Nat) (i j : Nat),
      draggedId ≠ targetId →
      todos.findIdx? (fun t => t.id = draggedId) = some i →
      todos.findIdx? (fun t => t.id = targetId) = some j →
      ∃ removed, todos.get? i = some removed ∧
        reorder draggedId targetId todos = (todos.eraseIdx i).insertIdx j removed)
    ∧ (∀ (A B C : Todo), A.id ≠ B.id → A.id ≠ C.id → B.id ≠ C.id →
      reorder A.id C.id [A, B, C] = [B, C, A]) := by
  refine ⟨?_, ?_, ?_, ?_, ?_, ?_⟩
  · intro todos draggedId targetId h
    simp [reorder, handleDrop, h]
  · intro todos draggedId targetId h
    have hnone : todos.findIdx? (fun t => t.id = draggedId) = none := by
      rw [List.findIdx?_eq_none_iff]
      intro t ht
      simpa using h t ht
    by_cases heq : draggedId = targetId
    · simp [reorder, handleDrop, heq]
    · simp [reorder, handleDrop, heq, hnone]
  · intro todos draggedId targetId h
    have hnone : todos.findIdx? (fun t => t.id = targetId) = none := by
      rw [List.findIdx?_eq_none_iff]
      intro t ht
      simpa using h t ht
    by_cases heq : draggedId = targetId
    · simp [reorder, handleDrop, heq]
    · simp only [reorder, handleDrop, heq, if_false, hnone]
      cases todos.findIdx? (fun t => t.id = draggedId) <;> rfl
  · intro todos draggedId targetId
    exact handleDrop_perm (some draggedId) targetId todos
  · intro todos draggedId targetId i j hne hdi htj
    have hi : i < todos.length :=
      (List.findIdx?_eq_some_iff_findIdx_eq.mp hdi).1
    have hget : todos.get? i = some todos[i] := by
      rw [List.get?_eq_getElem?]
      exact List.getElem?_eq_getElem hi
    refine ⟨todos[i], hget, ?_⟩
    simp only [reorder, handleDrop, hne, if_false, hdi, htj, hget]
  · intro A B C hAB hAC hBC
    have h1 : [A, B, C].findIdx? (fun t => t.id = A.id) = some 0 := by
      simp [List.findIdx?_cons]
    have h2 : [A, B, C].findIdx? (fun t => t.id = C.id) = some 2 := by
      simp [List.findIdx?_cons, hAC, hBC]
    simp only [reorder, handleDrop, hAC, if_false, h1, h2]
    rfl

/-- Witness for C1: the concrete scenario — three tasks with distinct ids,
dragging "Task A" onto "Task C" yields the order `[Task B, Task C, Task A]`. -/
theorem reorder_spec_witness :
    reorder tA.id tC.id [tA, tB, tC] = [tB, tC, tA] :=
  reorder_spec.2.2.2.2.2 tA tB tC (by decide) (by decide) (by decide)

/-! ## C6: saveEdit -/

/-- Helper: once the accumulator holds `saveEditMsg todo` and every match in
the remaining list is `todo` itself, the message fold is stable. -/
theorem saveEdit_msg_foldl_stable (id : Nat) (todo : Todo) :
    ∀ l : List Todo, (∀ u ∈ l, u.id = id → u = todo) →
    l.foldl (fun m t => ((saveEditStep id t).2).getD m) (saveEditMsg todo) =
      saveEditMsg todo := by
  intro l
  induction l with
  | nil => intro _; rfl
  | cons t rest ih =>
    intro huniq
    have hrest : ∀ u ∈ rest, u.id = id → u = todo := fun u hu =>
      huniq u (List.mem_cons_of_mem t hu)
    by_cases ht : t.id = id
    · have heq : t = todo := huniq t (List.mem_cons_self t rest) ht
      subst heq
      have hstep : ((saveEditStep id t).2).getD (saveEditMsg t) = saveEditMsg t := by
        by_cases htrim : jsTrim t.editedText = "" <;>
          simp [saveEditStep, ht, htrim, saveEditMsg]
      simp only [List.foldl_cons]
      rw [hstep]
      exact ih hrest
    · simp only [List.foldl_cons, saveEditStep, ht, if_false, Option.getD_none]
      exact ih hrest

/-- Helper: when a task with the given id is present and every match equals
that task, the message fold ends at `saveEditMsg todo` whatever message it
started from. -/
theorem saveEdit_msg_foldl (id : Nat) (todo : Todo) :
    ∀ (l : List Todo) (m : String), todo ∈ l → todo.id = id →
    (∀ u ∈ l, u.id = id → u = todo) →
    l.foldl (fun m t => ((saveEditStep id t).2).getD m) m = saveEditMsg todo := by
  intro l
  induction l with
  | nil => intro m hmem; cases hmem
  | cons t rest ih =>
    intro m hmem hid huniq
    have hrest : ∀ u ∈ rest, u.id = id → u = todo := fun u hu =>
      huniq u (List.mem_cons_of_mem t hu)
    by_cases ht : t.id = id
    · have heq : t = todo := huniq t (List.mem_cons_self t rest) ht
      subst heq
      have hstep : ((saveEditStep id t).2).getD m = saveEditMsg t := by
        by_cases htrim : jsTrim t.editedText = "" <;>
          simp [saveEditStep, ht, htrim, saveEditMsg]
      simp only [List.foldl_cons]
      rw [hstep]
      exact saveEdit_msg_foldl_stable id t rest hrest
    · have hmem' : todo ∈ rest := by
        rcases List.mem_cons.mp hmem with heq | h
        · exact absurd (heq ▸ hid) ht
        · exact h
      have hstep : ((saveEditStep id t).2).getD m = m := by
        simp [saveEditStep, ht]
      simp only [List.foldl_cons]
      rw [hstep]
      exact ih m hmem' hid hrest

/-- Claim C6: for a task present in the collection (and the only one with
its id), `saveEdit(task.id)` trims the task's scratch buffer; if the
trimmed buffer is empty the task's text is unchanged, `isEditing` becomes
false, `editedText` is reset to the original text and the message
"Task cannot be empty. Edit cancelled." is set; otherwise the text becomes
the trimmed buffer, `isEditing` becomes false and the message is cleared.
(`saveEdit` is a total function, so no exception is thrown.) -/
theorem saveEdit_spec (s : AppState) (todo : Todo)
    (hmem : todo ∈ s.todos)
    (huniq : ∀ u ∈ s.todos, u.id = todo.id → u = todo) :
    (jsTrim todo.editedText = "" →
      (saveEdit todo.id s).msg = "Task cannot be empty. Edit cancelled." ∧
      { todo with isEditing := false, editedText := todo.text } ∈
        (saveEdit todo.id s).todos)
    ∧ (jsTrim todo.editedText ≠ "" →
      (saveEdit todo.id s).msg = "" ∧
      { todo with
        text := jsTrim todo.editedText,
        isEditing := false,
        editedText := jsTrim todo.editedText } ∈ (saveEdit todo.id s).todos) := by
  have hmsg : (saveEdit todo.id s).msg = saveEditMsg todo :=
    saveEdit_msg_foldl todo.id todo s.todos s.msg hmem rfl huniq
  constructor
  · intro htrim
    constructor
    · rw [hmsg, saveEditMsg, if_pos htrim]
    · have := List.mem_map_of_mem (fun t => (saveEditStep todo.id t).1) hmem
      simpa [saveEdit, saveEditStep, htrim] using this
  · intro htrim
    constructor
    · rw [hmsg, saveEditMsg, if_neg htrim]
    · have := List.mem_map_of_mem (fun t => (saveEditStep todo.id t).1) hmem
      simpa [saveEdit, saveEditStep, htrim] using this

/-- Witness for C6: saving `tEdit` (scratch buffer `" new "`) in a
singleton collection commits the trimmed text `"new"`, leaves editing mode
and clears the message. -/
theorem saveEdit_spec_witness :
    (saveEdit tEdit.id { todos := [tEdit], msg := "x", newTodoText := "" }).msg = "" ∧
    { tEdit with
      text := jsTrim tEdit.editedText,
      isEditing := false,
      editedText := jsTrim tEdit.editedText } ∈
      (saveEdit tEdit.id { todos := [tEdit], msg := "x", newTodoText := "" }).todos :=
  (saveEdit_spec { todos := [tEdit], msg := "x", newTodoText := "" } tEdit
    (by decide) (by decide)).2 (by decide)

/-! ## C7: at most one task in editing mode -/

/-- Claim C7: `editTodo(id)` sets `isEditing = true` and `editedText =
text` on the matching task and `isEditing = false` on every other task
(stated positionally), so under the id-uniqueness bound it establishes the
at-most-one-editor invariant; and every other operation — add, remove,
toggle, saveEdit, cancelEdit, drag-drop reorder — preserves that
invariant. -/
theorem editTodo_single_editor_spec :
    (∀ (todos : List Todo) (id : Nat) (i : Nat) (h : i < todos.length)
      (h' : i < (editTodo id todos).length),
      (editTodo id todos).get ⟨i, h'⟩ =
        (if (todos.get ⟨i, h⟩).id = id
         then { todos.get ⟨i, h⟩ with
                isEditing := true,
                editedText := (todos.get ⟨i, h⟩).text }
         else { todos.get ⟨i, h⟩ with isEditing := false }))
    ∧ (∀ (todos : List Todo) (id : Nat),
      List.countP (fun t => t.id = id) todos ≤ 1 →
      AtMostOneEditing (editTodo id todos))
    ∧ (∀ (s : AppState) (now : Nat),
      AtMostOneEditing s.todos → AtMostOneEditing (addTodo now s).todos)
    ∧ (∀ (todos : List Todo) (id : Nat),
      AtMostOneEditing todos → AtMostOneEditing (removeTodo id todos))
    ∧ (∀ (todos : List Todo) (id : Nat),
      AtMostOneEditing todos → AtMostOneEditing (toggleChecked id todos))
    ∧ (∀ (s : AppState) (id : Nat),
      AtMostOneEditing s.todos → AtMostOneEditing (saveEdit id s).todos)
    ∧ (∀ (s : AppState) (id : Nat),
      AtMostOneEditing s.todos → AtMostOneEditing (cancelEdit id s).todos)
    ∧ (∀ (todos : List Todo) (draggedTodoId : Option Nat) (targetId : Nat),
      AtMostOneEditing todos →
      AtMostOneEditing (handleDrop draggedTodoId targetId todos)) := by
  refine ⟨?_, ?_, ?_, ?_, ?_, ?_, ?_, ?_⟩
  · intro todos id i h h'
    simp [editTodo, List.get_eq_getElem, List.getElem_map]
  · intro todos id hcount
    have hmap : List.countP (fun t => t.isEditing) (editTodo id todos) =
        List.countP (fun t => t.id = id) todos := by
      rw [editTodo, List.countP_map]
      refine List.countP_congr ?_
      intro t _
      by_cases ht : t.id = id <;> simp [Function.comp, ht]
    rw [AtMostOneEditing, hmap]
    exact hcount
  · intro s now h
    rw [addTodo]
    by_cases htrim : jsTrim s.newTodoText = ""
    · simpa [htrim] using h
    · simp only [htrim, if_false]
      rw [AtMostOneEditing, List.countP_append]
      simpa [List.countP_cons] using h
  · intro todos id h
    exact le_trans (List.Sublist.countP_le _ (List.filter_sublist todos)) h
  · intro todos id h
    refine le_trans ?_ h
    rw [toggleChecked, List.countP_map]
    refine le_of_eq (List.countP_congr ?_)
    intro t _
    by_cases ht : t.id = id <;> simp [Function.comp, ht]
  · intro s id h
    refine le_trans ?_ h
    rw [saveEdit]
    simp only [List.countP_map]
    refine List.countP_mono_left ?_
    intro t _
    by_cases ht : t.id = id
    · by_cases htrim : jsTrim t.editedText = "" <;>
        simp [Function.comp, saveEditStep, ht, htrim]
    · simp [Function.comp, saveEditStep, ht]
  · intro s id h
    refine le_trans ?_ h
    rw [cancelEdit]
    simp only [List.countP_map]
    refine List.countP_mono_left ?_
    intro t _
    by_cases ht : t.id = id <;> simp [Function.comp, ht]
  · intro todos draggedTodoId targetId h
    rw [AtMostOneEditing,
      (handleDrop_perm draggedTodoId targetId todos).countP_eq]
    exact h

/-- Witness for C7: `editTodo 1` on `[tA, tB]` (unique ids) leaves at most
one task editing, and `toggleChecked` preserves the invariant there. -/
theorem editTodo_single_editor_spec_witness :
    AtMostOneEditing (editTodo 1 [tA, tB]) ∧
    AtMostOneEditing (toggleChecked 1 [tA, tB]) :=
  ⟨editTodo_single_editor_spec.2.1 [tA, tB] 1 (by decide),
   editTodo_single_editor_spec.2.2.2.2.1 [tA, tB] 1 (by decide)⟩

/-! ## C2: id uniqueness -/

/-- Shared helper: a map whose element transformation never changes `id`
preserves `UniqueIds`. -/
theorem uniqueIds_map_of_id_eq (f : Todo → Todo) (hf : ∀ t, (f t).id = t.id)
    (todos : List Todo) (h : UniqueIds todos) : UniqueIds (todos.map f) := by
  rw [UniqueIds, List.pairwise_map]
  refine h.imp ?_
  intro a b hab
  rw [hf, hf]
  exact hab

/-- Claim C2: in every reachable state — in particular after every add —
task ids are unique within the collection; each `addTodo` appends a task
carrying the freshly minted clock id, which under the clock assumption is
distinct from every existing id. -/
theorem reachable_uniqueIds (s : AppState) (h : Reachable s) :
    UniqueIds s.todos := by
  induction h with
  | init => simp [UniqueIds]
  | typeNew s txt _ ih => exact ih
  | typeEditBuffer s id txt _ ih =>
    refine uniqueIds_map_of_id_eq _ ?_ _ ih
    intro t
    by_cases ht : t.id = id <;> simp [ht]
  | add s now _ hfresh ih =>
    rw [addTodo]
    by_cases htrim : jsTrim s.newTodoText = ""
    · simpa [htrim] using ih
    · simp only [htrim, if_false]
      rw [UniqueIds, List.pairwise_append]
      refine ⟨ih, by simp, ?_⟩
      intro a ha b hb
      simp only [List.mem_singleton] at hb
      subst hb
      exact Nat.ne_of_lt (hfresh a ha)
  | remove s id _ ih =>
    exact List.Pairwise.sublist (List.filter_sublist _) ih
  | toggle s id _ ih =>
    refine uniqueIds_map_of_id_eq _ ?_ _ ih
    intro t
    by_cases ht : t.id = id <;> simp [ht]
  | edit s id _ ih =>
    refine uniqueIds_map_of_id_eq _ ?_ _ ih
    intro t
    by_cases ht : t.id = id <;> simp [ht]
  | save s id _ ih =>
    refine uniqueIds_map_of_id_eq _ ?_ _ ih
    intro t
    by_cases ht : t.id = id
    · by_cases htrim : jsTrim t.editedText = "" <;>
        simp [saveEditStep, ht, htrim]
    · simp [saveEditStep, ht]
  | cancel s id _ ih =>
    refine uniqueIds_map_of_id_eq _ ?_ _ ih
    intro t
    by_cases ht : t.id = id <;> simp [ht]
  | dragDrop s draggedTodoId targetId _ ih =>
    exact ((handleDrop_perm draggedTodoId targetId s.todos).pairwise_iff
      (fun hab => Ne.symm hab)).mpr ih

/-- Witness for C2: a concrete reachable trace — type "a", then add with
clock value 5 — yields a collection with unique ids. -/
theorem reachable_uniqueIds_witness :
    UniqueIds (addTodo 5 { todos := [], msg := "", newTodoText := "a" }).todos :=
  reachable_uniqueIds _
    (Reachable.add { todos := [], msg := "", newTodoText := "a" } 5
      (Reachable.typeNew { todos := [], msg := "", newTodoText := "" } "a"
        Reachable.init)
      (by simp))
